import Mathlib

/-!
Verification of the hybrid problem-extraction pipeline of the
SmartCFHelper extension: URL parsing, metadata fetch with fallback,
rendered-page scraping, content extraction, and the merge step of
`extractProblemData` in `ProblemWebViewProvider`.

The TypeScript source is embedded shallowly: the DOM is a map from CSS
selectors to element lists, network and browser effects are supplied by
explicit environments, and JavaScript string/regex operations are
re-implemented over `List Char`.
-/

namespace SCH

/-! ### Character and string primitives (JavaScript semantics) -/

/-- JavaScript `\s` character test (whitespace incl. the usual Unicode spaces). -/
def jsIsSpace (c : Char) : Bool :=
  c = ' ' || c = '\t' || c = '\n' || c = '\r' ||
  c.toNat = 0x0b || c.toNat = 0x0c || c.toNat = 0xa0 || c.toNat = 0x1680 ||
  (0x2000 ≤ c.toNat && c.toNat ≤ 0x200a) ||
  c.toNat = 0x2028 || c.toNat = 0x2029 || c.toNat = 0x202f ||
  c.toNat = 0x205f || c.toNat = 0x3000 || c.toNat = 0xfeff

def digitChars : List Char := ['0', '1', '2', '3', '4', '5', '6', '7', '8', '9']

def upperChars : List Char :=
  ['A', 'B', 'C', 'D', 'E', 'F', 'G', 'H', 'I', 'J', 'K', 'L', 'M',
   'N', 'O', 'P', 'Q', 'R', 'S', 'T', 'U', 'V', 'W', 'X', 'Y', 'Z']

def lowerChars : List Char :=
  ['a', 'b', 'c', 'd', 'e', 'f', 'g', 'h', 'i', 'j', 'k', 'l', 'm',
   'n', 'o', 'p', 'q', 'r', 's', 't', 'u', 'v', 'w', 'x', 'y', 'z']

/-- JavaScript `\d`: ASCII digit (`0`-`9`). -/
def isDigitChar (c : Char) : Bool := decide (c ∈ digitChars)

def isUpperAscii (c : Char) : Bool := decide (c ∈ upperChars)

def isLowerAscii (c : Char) : Bool := decide (c ∈ lowerChars)

/-- JavaScript `\w`: ASCII letter, digit or underscore. -/
def isWordChar (c : Char) : Bool :=
  isUpperAscii c || isLowerAscii c || isDigitChar c || c = '_'

/-- The class `[A-Z]` under the `i` regex flag: any ASCII letter. -/
def isAsciiLetter (c : Char) : Bool := isUpperAscii c || isLowerAscii c

def toLowerAscii (c : Char) : Char :=
  if isUpperAscii c then Char.ofNat (c.toNat + 32) else c

def toUpperAscii (c : Char) : Char :=
  if isLowerAscii c then Char.ofNat (c.toNat - 32) else c

/-- Case-insensitive character comparison, as under the `i` regex flag. -/
def ciCharEq (a b : Char) : Bool := toLowerAscii a = toLowerAscii b

/-- Pointwise case-insensitive equality of two character lists. -/
def ciEqList : List Char → List Char → Bool
  | [], [] => true
  | a :: as, b :: bs => ciCharEq a b && ciEqList as bs
  | _, _ => false

/-- JavaScript `String.prototype.trim` on a character list. -/
def jsTrimL (l : List Char) : List Char :=
  ((l.dropWhile jsIsSpace).reverse.dropWhile jsIsSpace).reverse

def jsTrim (s : String) : String := String.mk (jsTrimL s.data)

/-- Collapse every run of whitespace into a single space
(JS `replace(/\s+/g, ' ')`, after which `replace(/\n+/g, ' ')` is a no-op). -/
def collapseWs : List Char → List Char
  | [] => []
  | [c] => [if jsIsSpace c then ' ' else c]
  | c :: d :: cs =>
    if jsIsSpace c && jsIsSpace d then collapseWs (d :: cs)
    else (if jsIsSpace c then ' ' else c) :: collapseWs (d :: cs)

/-- The `cleanText` helper: collapse whitespace runs to single spaces, then trim. -/
def cleanText (s : String) : String := String.mk (jsTrimL (collapseWs s.data))

/-- Does `l` start with a case-insensitive occurrence of `needle`? -/
def startsWithCI : List Char → List Char → Bool
  | [], _ => true
  | _ :: _, [] => false
  | n :: ns, c :: cs => ciCharEq c n && startsWithCI ns cs

/-- JS `replace(/needle/i, '')`: delete the first (leftmost) case-insensitive
occurrence of `needle`, if any. -/
def removeFirstCI (needle : List Char) : List Char → List Char
  | [] => []
  | c :: cs =>
    if startsWithCI needle (c :: cs) then List.drop needle.length (c :: cs)
    else c :: removeFirstCI needle cs

def removeFirstCIStr (needle s : String) : String :=
  String.mk (removeFirstCI needle.data s.data)

/-- Numeric value of a decimal digit string (`parseInt` on the capture). -/
def digitVal (c : Char) : Nat := c.toNat - '0'.toNat

def digitsVal (l : List Char) : Nat := l.foldl (fun acc c => acc * 10 + digitVal c) 0

/-! ### URL recognition

`extractProblemData` matches the URL against
`/\/problemset\/problem\/(\d+)\/([A-Z]\d?)/i` and, failing that,
`/\/contest\/(\d+)\/problem\/([A-Z]\d?)/i`.  Both are *unanchored*
JavaScript regexes: the engine scans for the leftmost position at which
the pattern matches.  Each pattern has the form
literal₁ · digits⁺ · literal₂ · letter · digit?. -/

structure ShapeMatch where
  digits : List Char
  indexChars : List Char
  deriving DecidableEq, Repr

/-- Case-insensitive literal matching: consume `lit` from the front of `s`. -/
def matchLiteralCI : List Char → List Char → Option (List Char)
  | [], s => some s
  | _ :: _, [] => none
  | l :: ls, c :: cs => if ciCharEq c l then matchLiteralCI ls cs else none

/-- Match the pattern tail `(\d+) · lit2 · ([A-Z]\d?)` against the remainder
`r1` of the subject after `lit1` was consumed. -/
def matchShapeTail (lit2 r1 : List Char) : Option ShapeMatch :=
  if r1.takeWhile isDigitChar = [] then none
  else
    match matchLiteralCI lit2 (r1.dropWhile isDigitChar) with
    | none => none
    | some r3 =>
      match r3 with
      | [] => none
      | c :: rest =>
        if isAsciiLetter c then
          match rest with
          | [] => some ⟨r1.takeWhile isDigitChar, [c]⟩
          | d :: _ =>
            if isDigitChar d then some ⟨r1.takeWhile isDigitChar, [c, d]⟩
            else some ⟨r1.takeWhile isDigitChar, [c]⟩
        else none

/-- Match `lit1 · (\d+) · lit2 · ([A-Z]\d?)` (all case-insensitive) at the
start of `s`. -/
def matchShapeAt (lit1 lit2 s : List Char) : Option ShapeMatch :=
  match matchLiteralCI lit1 s with
  | none => none
  | some r1 => matchShapeTail lit2 r1

/-- Leftmost match of the shape anywhere in `s` (JS unanchored search). -/
def findShape (lit1 lit2 : List Char) : List Char → Option ShapeMatch
  | [] => matchShapeAt lit1 lit2 []
  | c :: cs =>
    match matchShapeAt lit1 lit2 (c :: cs) with
    | some m => some m
    | none => findShape lit1 lit2 cs

def problemsetLit : List Char := "/problemset/problem/".data

def slashLit : List Char := "/".data

def contestLit : List Char := "/contest/".data

def problemLit : List Char := "/problem/".data

/-- The URL-recognition step of `extractProblemData`: first regex, then the
second; `parseInt` on the digits capture, `toUpperCase` on the index capture. -/
def parseProblemUrl (url : String) : Option (Nat × String) :=
  match findShape problemsetLit slashLit url.data with
  | some m => some (digitsVal m.digits, String.mk (m.indexChars.map toUpperAscii))
  | none =>
    match findShape contestLit problemLit url.data with
    | some m => some (digitsVal m.digits, String.mk (m.indexChars.map toUpperAscii))
    | none => none

/-! ### Data model -/

/-- The `TestCase` interface of the source. -/
structure TestCase where
  input : String
  output : String
  explanation : Option String
  deriving DecidableEq, Repr

/-- The `ProblemData` interface of the source. -/
structure ProblemData where
  title : String
  timeLimit : String
  memoryLimit : String
  description : String
  inputFormat : String
  outputFormat : String
  constraints : List String
  sampleTests : List TestCase
  source : String
  difficulty : Option String
  deriving DecidableEq, Repr

/-- The `CodeforcesApiProblem` interface of the source. -/
structure CodeforcesApiProblem where
  contestId : Nat
  index : String
  name : String
  type : String
  rating : Option Nat
  tags : List String
  deriving DecidableEq, Repr

/-! ### DOM model

A rendered page is modelled by what `page.evaluate` can observe of it:
for each CSS selector, the list of matching elements in document order.
`document.querySelector` is the head of that list.  An element carries its
`textContent` (null-able), its class list, and whether it contains a
`.time-limit` / `.memory-limit` descendant (the only sub-queries the
extraction code performs on an element). -/

structure Elem where
  textContent : Option String
  classes : List String
  hasTimeLimitChild : Bool
  hasMemoryLimitChild : Bool
  deriving DecidableEq, Repr

structure Dom where
  queryAll : String → List Elem

def Dom.queryOne (dom : Dom) (sel : String) : Option Elem := (dom.queryAll sel).head?

/-! ### `page.evaluate` extraction body -/

/-- The `getTextBySelectors` helper: first selector whose first match has non-empty
(truthy, non-blank) text wins; the text is `cleanText`-ed. -/
def getTextBySelectors (dom : Dom) : List String → String
  | [] => ""
  | sel :: rest =>
    match dom.queryOne sel with
    | some el =>
      match el.textContent with
      | some t =>
        if t ≠ "" && jsTrim t ≠ "" then cleanText t
        else getTextBySelectors dom rest
      | none => getTextBySelectors dom rest
    | none => getTextBySelectors dom rest

/-- Strip a leading `[A-Z]\d*\.\s*` index label from the title
(`replace(/^[A-Z]\d*\.\s*/, '')`, case-sensitive and anchored). -/
def stripIndexLabel (l : List Char) : List Char :=
  match l with
  | [] => l
  | c :: cs =>
    if isUpperAscii c then
      match cs.dropWhile isDigitChar with
      | '.' :: rest => rest.dropWhile jsIsSpace
      | _ => l
    else l

def titleSelectors : List String :=
  [".problem-statement .title", ".problemindexholder .title", ".header .title", "h1", "h2"]

def extractTitleRaw (dom : Dom) : String :=
  String.mk (stripIndexLabel (getTextBySelectors dom titleSelectors).data)

def timeLimitSelectors : List String := [".time-limit", "[class*=\"time-limit\"]"]

def extractTimeLimitRaw (dom : Dom) : String :=
  jsTrim (removeFirstCIStr "time limit"
    (removeFirstCIStr "time limit per test" (getTextBySelectors dom timeLimitSelectors)))

def memoryLimitSelectors : List String := [".memory-limit", "[class*=\"memory-limit\"]"]

def extractMemoryLimitRaw (dom : Dom) : String :=
  jsTrim (removeFirstCIStr "memory limit"
    (removeFirstCIStr "memory limit per test" (getTextBySelectors dom memoryLimitSelectors)))

def descriptionSelectors : List String :=
  [".problem-statement > div:not(.input-specification):not(.output-specification):not(.sample-tests):not(.note)",
   ".problem-statement p",
   ".problemindexholder > div"]

/-- Inner description loop: accumulate qualifying child blocks, breaking once
the accumulated text exceeds 200 characters. -/
def accumDescription : List Elem → List Char → List Char
  | [], acc => acc
  | el :: rest, acc =>
    match el.textContent with
    | some t =>
      if t ≠ "" && !(el.classes.contains "section-title") &&
          !el.hasTimeLimitChild && !el.hasMemoryLimitChild &&
          20 < (jsTrimL t.data).length then
        let acc2 := acc ++ (cleanText t).data ++ [' ']
        if 200 < acc2.length then acc2 else accumDescription rest acc2
      else accumDescription rest acc
    | none => accumDescription rest acc

/-- Outer description loop over the selector cascade: stop at the first
selector after which the accumulated description is non-blank. -/
def descriptionLoop (dom : Dom) (acc : List Char) : List String → List Char
  | [] => acc
  | sel :: rest =>
    let d := accumDescription (dom.queryAll sel) acc
    if jsTrimL d = [] then descriptionLoop dom d rest else d

def extractDescriptionRaw (dom : Dom) : String :=
  String.mk (jsTrimL (descriptionLoop dom [] descriptionSelectors))

def inputSpecSelectors : List String :=
  [".input-specification", ".input-specification p", "[class*=\"input-spec\"]"]

def extractInputFormatRaw (dom : Dom) : String :=
  jsTrim (removeFirstCIStr "input" (getTextBySelectors dom inputSpecSelectors))

def outputSpecSelectors : List String :=
  [".output-specification", ".output-specification p", "[class*=\"output-spec\"]"]

def extractOutputFormatRaw (dom : Dom) : String :=
  jsTrim (removeFirstCIStr "output" (getTextBySelectors dom outputSpecSelectors))

/-! ### Sample-test pairing -/

def inputSelectors : List String :=
  [".input pre", ".sample-input pre", ".input", ".sample-input"]

def outputSelectors : List String :=
  [".output pre", ".sample-output pre", ".output", ".sample-output"]

/-- Reading of one sample block: `inputs[i].textContent?.trim() || ''`. -/
def sampleAt (l : List Elem) (i : Nat) : String :=
  match l.get? i with
  | some el =>
    match el.textContent with
    | some t => jsTrim t
    | none => ""
  | none => ""

/-- Positional pairing loop for one selector combination:
`for i in 0 .. min(inputs.length, outputs.length)` with the validity guard. -/
def pairSamples (ins outs : List Elem) : List TestCase :=
  (List.range (Nat.min ins.length outs.length)).filterMap fun i =>
    let input := sampleAt ins i
    let output := sampleAt outs i
    if input ≠ "" ∧ output ≠ "" ∧ input.length < 200 ∧ output.length < 200 then
      some { input := input, output := output, explanation := none }
    else none

/-- Inner cascade over output selector families (break on first non-empty
pairing). -/
def samplesOverOutputs (dom : Dom) (ins : List Elem) : List String → List TestCase
  | [] => []
  | so :: rest =>
    if 0 < (dom.queryAll so).length then
      if 0 < (pairSamples ins (dom.queryAll so)).length then
        pairSamples ins (dom.queryAll so)
      else samplesOverOutputs dom ins rest
    else samplesOverOutputs dom ins rest

/-- Outer cascade over input selector families. -/
def samplesOverInputs (dom : Dom) : List String → List TestCase
  | [] => []
  | si :: rest =>
    if 0 < (dom.queryAll si).length then
      if 0 < (samplesOverOutputs dom (dom.queryAll si) outputSelectors).length then
        samplesOverOutputs dom (dom.queryAll si) outputSelectors
      else samplesOverInputs dom rest
    else samplesOverInputs dom rest

def extractSampleTests (dom : Dom) : List TestCase := samplesOverInputs dom inputSelectors

/-! ### Constraint patterns

The source file literally contains the byte sequence `e2 80 9a c3 a2 c2 a7`
inside both character classes (a double-encoded `≤`), so the classes as
executed are `[‚â§<=]`: the five characters U+201A, U+00E2, U+00A7, `<`, `=`. -/

def clsChars : List Char := [Char.ofNat 0x201a, Char.ofNat 0xe2, Char.ofNat 0xa7, '<', '=']

def isClsChar (c : Char) : Bool := clsChars.contains c

def takeDigitsOne (s : List Char) : Option (List Char × List Char) :=
  let d := s.takeWhile isDigitChar
  if d = [] then none else some (d, s.dropWhile isDigitChar)

def takeWordOne (s : List Char) : Option (List Char × List Char) :=
  let w := s.takeWhile isWordChar
  if w = [] then none else some (w, s.dropWhile isWordChar)

def takeSpaces (s : List Char) : List Char × List Char :=
  (s.takeWhile jsIsSpace, s.dropWhile jsIsSpace)

def takeCls (s : List Char) : Option (Char × List Char) :=
  match s with
  | c :: rest => if isClsChar c then some (c, rest) else none
  | [] => none

/-- Match `\d+\s*[‚â§<=]\s*\w+\s*[‚â§<=]\s*\d+` at the start of `s`,
returning the matched characters and the remainder. -/
def matchIneq1 (s : List Char) : Option (List Char × List Char) :=
  match takeDigitsOne s with
  | none => none
  | some (d1, r1) =>
    let (w1, r2) := takeSpaces r1
    match takeCls r2 with
    | none => none
    | some (c1, r3) =>
      let (w2, r4) := takeSpaces r3
      match takeWordOne r4 with
      | none => none
      | some (v, r5) =>
        let (w3, r6) := takeSpaces r5
        match takeCls r6 with
        | none => none
        | some (c2, r7) =>
          let (w4, r8) := takeSpaces r7
          match takeDigitsOne r8 with
          | none => none
          | some (d2, r9) =>
            some (d1 ++ w1 ++ [c1] ++ w2 ++ v ++ w3 ++ [c2] ++ w4 ++ d2, r9)

/-- Match `1\s*[‚â§<=]\s*\w+\s*[‚â§<=]\s*10\^?\d+` at the start of `s`. -/
def matchIneq2 (s : List Char) : Option (List Char × List Char) :=
  match s with
  | '1' :: r0 =>
    let (w1, r1) := takeSpaces r0
    match takeCls r1 with
    | none => none
    | some (c1, r2) =>
      let (w2, r3) := takeSpaces r2
      match takeWordOne r3 with
      | none => none
      | some (v, r4) =>
        let (w3, r5) := takeSpaces r4
        match takeCls r5 with
        | none => none
        | some (c2, r6) =>
          let (w4, r7) := takeSpaces r6
          match r7 with
          | '1' :: '0' :: r8 =>
            match r8 with
            | '^' :: r9 =>
              match takeDigitsOne r9 with
              | some (d2, r10) =>
                some ('1' :: (w1 ++ [c1] ++ w2 ++ v ++ w3 ++ [c2] ++ w4 ++
                  '1' :: '0' :: '^' :: d2), r10)
              | none => none
            | _ =>
              match takeDigitsOne r8 with
              | some (d2, r10) =>
                some ('1' :: (w1 ++ [c1] ++ w2 ++ v ++ w3 ++ [c2] ++ w4 ++
                  '1' :: '0' :: d2), r10)
              | none => none
          | _ => none
  | _ => none

/-- Global regex scan (`/g` flag): leftmost match, continue after it;
fuelled by the remaining length (each step consumes at least one char). -/
def globalScanAux (matcher : List Char → Option (List Char × List Char)) :
    Nat → List Char → List (List Char)
  | 0, _ => []
  | _, [] => []
  | fuel + 1, c :: tail =>
    match matcher (c :: tail) with
    | some (m, rest) => m :: globalScanAux matcher fuel rest
    | none => globalScanAux matcher fuel tail

def globalScan (matcher : List Char → Option (List Char × List Char))
    (s : List Char) : List (List Char) :=
  globalScanAux matcher s.length s

def noteSelectors : List String := [".note", ".notes", "[class*=\"constraint\"]"]

def extractConstraints (dom : Dom) : List String :=
  let noteText := getTextBySelectors dom noteSelectors
  if noteText = "" then []
  else
    (globalScan matchIneq1 noteText.data ++ globalScan matchIneq2 noteText.data).map String.mk

/-! ### The `page.evaluate` result -/

/-- The object literal returned by `page.evaluate`, defaults applied via
JavaScript `||`: empty strings fall back to the documented placeholders,
`source` is the fixed label `'Codeforces'`, `difficulty` is `undefined`. -/
def extractFromDom (dom : Dom) : ProblemData :=
  let title := extractTitleRaw dom
  let timeLimit := extractTimeLimitRaw dom
  let memoryLimit := extractMemoryLimitRaw dom
  let description := extractDescriptionRaw dom
  let inputFormat := extractInputFormatRaw dom
  let outputFormat := extractOutputFormatRaw dom
  { title := if title = "" then "Problem Title" else title
  , timeLimit := if timeLimit = "" then "1 second" else timeLimit
  , memoryLimit := if memoryLimit = "" then "256 megabytes" else memoryLimit
  , description := if description = "" then "Problem description" else description
  , inputFormat := if inputFormat = "" then "See problem statement" else inputFormat
  , outputFormat := if outputFormat = "" then "See problem statement" else outputFormat
  , constraints := extractConstraints dom
  , sampleTests := extractSampleTests dom
  , source := "Codeforces"
  , difficulty := none }

/-! ### Rendered-page fetch (`scrapeWithOptimizedPuppeteer`)

Each call launches one browser session.  The environment fixes the outcome
of every effectful step of that call: page setup (newPage / request
interception / viewport / user agent), navigation (`page.goto`, 20 s
timeout), the secondary readiness wait (`page.waitForFunction`, 10 s,
caught on timeout) and DOM evaluation (`page.evaluate`, yielding the DOM
the extraction body runs over). -/

structure RenderEnv where
  launchOk : Bool
  pageSetup : Except String Unit
  navigation : Except String Unit
  readiness : Except String Unit
  evaluation : Except String Dom

inductive BrowserEvent where
  | launched
  | closed
  deriving DecidableEq, Repr

/-- The readiness wait has its own `try/catch`: a timeout is logged and
swallowed, extraction proceeds with whatever is present. -/
def readinessWait (env : RenderEnv) : Except String Unit :=
  match env.readiness with
  | .ok _ => .ok ()
  | .error _ => .ok ()

/-- The body of the `try` block: setup, navigation, readiness wait,
evaluation, extraction. -/
def scrapeBody (env : RenderEnv) : Except String ProblemData :=
  match env.pageSetup with
  | .error e => .error e
  | .ok _ =>
    match env.navigation with
    | .error e => .error e
    | .ok _ =>
      match readinessWait env with
      | .error e => .error e
      | .ok _ =>
        match env.evaluation with
        | .error e => .error e
        | .ok dom => .ok (extractFromDom dom)

/-- One call to `scrapeWithOptimizedPuppeteer`: launch, run the body under
`try/catch/finally` (the catch wraps the error message, the finally closes
the browser on both exits), and report the browser events of the call. -/
def scrapeRun (env : RenderEnv) : Except String ProblemData × List BrowserEvent :=
  if env.launchOk then
    match scrapeBody env with
    | .ok pd => (.ok pd, [.launched, .closed])
    | .error e => (.error ("Failed to scrape problem data: " ++ e), [.launched, .closed])
  else
    (.error "Failed to launch the browser process", [])

/-! ### Metadata fetch (`fetchFromCodeforcesAPI`) -/

/-- The decoded JSON document of `problemset.problems`. -/
structure ApiResponse where
  status : String
  comment : String
  problems : List CodeforcesApiProblem

/-- Network outcome of the single `fetch` of the API call. -/
structure ApiEnv where
  response : Except String ApiResponse

/-- The metadata client `fetchFromCodeforcesAPI`: status check, linear `find` for the exact
contest/index match, all failures re-wrapped by the surrounding catch. -/
def fetchFromCodeforcesAPI (env : ApiEnv) (contestId : Nat) (problemIndex : String) :
    Except String CodeforcesApiProblem :=
  let inner : Except String CodeforcesApiProblem :=
    match env.response with
    | .error e => .error e
    | .ok data =>
      if data.status ≠ "OK" then .error ("API Error: " ++ data.comment)
      else
        match data.problems.find? (fun p => p.contestId == contestId && p.index == problemIndex) with
        | some p => .ok p
        | none =>
          .error ("Problem " ++ toString contestId ++ "/" ++ problemIndex ++ " not found in API")
  match inner with
  | .ok p => .ok p
  | .error e => .error ("Failed to fetch from Codeforces API: " ++ e)

/-! ### Orchestrator (`extractProblemData`) -/

/-- Environment of one `extractProblemData` call: the API outcome and the
render environment of the n-th scrape attempt of this call. -/
structure OrchEnv where
  api : ApiEnv
  render : Nat → RenderEnv

/-- How many times each network stage was invoked during the call. -/
structure CallTrace where
  apiCalls : Nat
  scrapeCalls : Nat
  deriving DecidableEq, Repr

/-- The `try` block: API fetch, then scrape, then merge. -/
def mergeData (contestId : Nat) (apiData : CodeforcesApiProblem) (detailedData : ProblemData) :
    ProblemData :=
  { title := if apiData.name = "" then detailedData.title else apiData.name
  , timeLimit := detailedData.timeLimit
  , memoryLimit := detailedData.memoryLimit
  , description := detailedData.description
  , inputFormat := detailedData.inputFormat
  , outputFormat := detailedData.outputFormat
  , constraints := detailedData.constraints
  , sampleTests := detailedData.sampleTests
  , source := "Contest " ++ toString contestId
  , difficulty :=
      match apiData.rating with
      | some r => if r = 0 then detailedData.difficulty else some ("*" ++ toString r)
      | none => detailedData.difficulty }

/-- The `try { api; scrape; merge } catch { scrape }` block of
`extractProblemData`.  The `catch` covers the scrape as well, so a scrape
failure after a successful API fetch triggers a second scrape attempt
(`env.render 1`). -/
def tryFetchAndScrape (env : OrchEnv) (contestId : Nat) (problemIndex : String) :
    Except String ProblemData × CallTrace :=
  match fetchFromCodeforcesAPI env.api contestId problemIndex with
  | .error _ =>
    ((scrapeRun (env.render 0)).1, { apiCalls := 1, scrapeCalls := 1 })
  | .ok apiData =>
    match (scrapeRun (env.render 0)).1 with
    | .ok detailedData =>
      (.ok (mergeData contestId apiData detailedData), { apiCalls := 1, scrapeCalls := 1 })
    | .error _ =>
      ((scrapeRun (env.render 1)).1, { apiCalls := 1, scrapeCalls := 2 })

/-- The orchestrator `extractProblemData`: parse the URL (throwing before any network call
when neither regex matches), then run the fetch/scrape/merge block. -/
def extractProblemData (env : OrchEnv) (url : String) :
    Except String ProblemData × CallTrace :=
  match parseProblemUrl url with
  | none => (.error "Invalid Codeforces problem URL format", { apiCalls := 0, scrapeCalls := 0 })
  | some (contestId, problemIndex) => tryFetchAndScrape env contestId problemIndex

/-! ### Spec-side predicates for the URL contract -/

/-- The index of a parsed reference: one uppercase ASCII letter optionally
followed by one digit. -/
def upperIndexShape (idx : String) : Prop :=
  ∃ c, isUpperAscii c = true ∧
    (idx.data = [c] ∨ ∃ d, isDigitChar d = true ∧ idx.data = [c, d])

/-- A successful parse decomposes the URL around one of the two shapes:
some position is followed by (a case-insensitive image of) one of the two
literal pairs with the digit run in between, the contest id is the value of
that digit run, and the index is its uppercased capture. -/
def shapeDecomp (url : String) (cid : Nat) (idx : String) : Prop :=
  ∃ pre t1 ds t2 ix rest,
    url.data = pre ++ t1 ++ ds ++ t2 ++ ix ++ rest ∧
    ((ciEqList t1 problemsetLit = true ∧ ciEqList t2 slashLit = true) ∨
      (ciEqList t1 contestLit = true ∧ ciEqList t2 problemLit = true)) ∧
    ds ≠ [] ∧ (∀ c ∈ ds, isDigitChar c = true) ∧
    cid = digitsVal ds ∧ idx = String.mk (ix.map toUpperAscii)

/-- Relation between a located cascade text `t` and the published format
field `res`: either `t` holds no case-insensitive occurrence of the label
`needle` and `res` is `t` trimmed, or `res` is `t` with its *first*
(leftmost) case-insensitive occurrence of `needle` deleted, then trimmed. -/
def strippedSpec (needle t : List Char) (res : String) : Prop :=
  ((∀ pre mid post, t = pre ++ mid ++ post → ciEqList mid needle = true → False) ∧
    res = String.mk (jsTrimL t)) ∨
  (∃ pre mid post, t = pre ++ mid ++ post ∧ ciEqList mid needle = true ∧
    res = String.mk (jsTrimL (pre ++ post)) ∧
    ∀ pre2 mid2 post2, t = pre2 ++ mid2 ++ post2 → ciEqList mid2 needle = true →
      pre.length ≤ pre2.length)

/-! ### Concrete inputs used by witnesses and counterexamples -/

def cfUrl : String := "https://codeforces.com/contest/4/problem/A"

def blogUrl : String := "https://codeforces.com/blog/123"

/-- A URL whose path starts with `/blog/123` and which only carries the
contest shape inside its query string. -/
def sneakyUrl : String := "https://codeforces.com/blog/123?next=/contest/4/problem/A"

def mkElem (t : String) : Elem :=
  { textContent := some t, classes := [], hasTimeLimitChild := false, hasMemoryLimitChild := false }

/-- A small rendered page: a title block and two sample input/output pairs. -/
def demoDom : Dom :=
  { queryAll := fun sel =>
      if sel = ".problem-statement .title" then [mkElem "A. Theatre Square"]
      else if sel = ".input pre" then [mkElem "8", mkElem "6"]
      else if sel = ".output pre" then [mkElem "YES", mkElem "YES"]
      else [] }

/-- A rendered page whose input specification does not start with the word
`input` but contains it in the middle. -/
def midWordDom : Dom :=
  { queryAll := fun sel =>
      if sel = ".input-specification" then [mkElem "The input is one line"]
      else [] }

def watermelonApi : CodeforcesApiProblem :=
  { contestId := 4, index := "A", name := "Watermelon", type := "PROGRAMMING"
  , rating := some 800, tags := [] }

def apiOkEnv : ApiEnv :=
  { response := .ok { status := "OK", comment := "", problems := [watermelonApi] } }

def apiFailEnv : ApiEnv := { response := .error "network unreachable" }

def renderOkEnv : RenderEnv :=
  { launchOk := true, pageSetup := .ok (), navigation := .ok ()
  , readiness := .ok (), evaluation := .ok demoDom }

def renderNavFailEnv : RenderEnv :=
  { launchOk := true, pageSetup := .ok ()
  , navigation := .error "Navigation timeout of 20000 ms exceeded"
  , readiness := .ok (), evaluation := .ok demoDom }

/-- Metadata fetch fails; every scrape attempt succeeds. -/
def gracefulEnv : OrchEnv := { api := apiFailEnv, render := fun _ => renderOkEnv }

/-- Metadata fetch succeeds; the first scrape attempt fails, the second
succeeds. -/
def retryEnv : OrchEnv :=
  { api := apiOkEnv, render := fun n => if n = 0 then renderNavFailEnv else renderOkEnv }

/-- Metadata fetch and the first scrape attempt both succeed. -/
def mergeEnv : OrchEnv := { api := apiOkEnv, render := fun _ => renderOkEnv }

/-! ## Helper lemmas -/

theorem scrapeBody_ok {env : RenderEnv} {pd : ProblemData}
    (h : scrapeBody env = .ok pd) :
    ∃ dom, env.evaluation = .ok dom ∧ pd = extractFromDom dom := by
  unfold scrapeBody at h
  split at h
  · exact Except.noConfusion h
  · split at h
    · exact Except.noConfusion h
    · split at h
      · exact Except.noConfusion h
      · split at h
        · exact Except.noConfusion h
        · next dom heq =>
            injection h with h2
            exact ⟨dom, heq, h2.symm⟩

theorem scrapeRun_ok {env : RenderEnv} {pd : ProblemData}
    (h : (scrapeRun env).1 = .ok pd) :
    ∃ dom, env.evaluation = .ok dom ∧ pd = extractFromDom dom := by
  unfold scrapeRun at h
  split at h
  · split at h
    · next pd2 hb =>
        injection h with h2
        exact h2 ▸ scrapeBody_ok hb
    · exact Except.noConfusion h
  · exact Except.noConfusion h

theorem extractFromDom_source (dom : Dom) : (extractFromDom dom).source = "Codeforces" := rfl

theorem extractFromDom_difficulty (dom : Dom) : (extractFromDom dom).difficulty = none := rfl

theorem extractProblemData_parsed {env : OrchEnv} {url : String} {cid : Nat} {idx : String}
    (h : parseProblemUrl url = some (cid, idx)) :
    extractProblemData env url = tryFetchAndScrape env cid idx := by
  unfold extractProblemData
  rw [h]

theorem tryFetchAndScrape_api_error {env : OrchEnv} {cid : Nat} {idx : String} {e : String}
    (h : fetchFromCodeforcesAPI env.api cid idx = .error e) :
    tryFetchAndScrape env cid idx =
      ((scrapeRun (env.render 0)).1, { apiCalls := 1, scrapeCalls := 1 }) := by
  unfold tryFetchAndScrape
  rw [h]

theorem tryFetchAndScrape_merge {env : OrchEnv} {cid : Nat} {idx : String}
    {apiData : CodeforcesApiProblem} {d : ProblemData}
    (h : fetchFromCodeforcesAPI env.api cid idx = .ok apiData)
    (hs : (scrapeRun (env.render 0)).1 = .ok d) :
    tryFetchAndScrape env cid idx =
      (.ok (mergeData cid apiData d), { apiCalls := 1, scrapeCalls := 1 }) := by
  unfold tryFetchAndScrape
  rw [h, hs]

theorem tryFetchAndScrape_retry {env : OrchEnv} {cid : Nat} {idx : String}
    {apiData : CodeforcesApiProblem} {e : String}
    (h : fetchFromCodeforcesAPI env.api cid idx = .ok apiData)
    (hs : (scrapeRun (env.render 0)).1 = .error e) :
    tryFetchAndScrape env cid idx =
      ((scrapeRun (env.render 1)).1, { apiCalls := 1, scrapeCalls := 2 }) := by
  unfold tryFetchAndScrape
  rw [h, hs]

/-! ## Claim theorems -/

/-- C1: if the metadata fetch fails for any reason but the rendered-page
scrape succeeds, `extractProblemData` returns exactly the scraped
`ProblemData`, whose `source` field is the generic label `"Codeforces"`;
the metadata failure never causes the call to fail. -/
theorem metadata_failure_is_graceful
    (env : OrchEnv) (url : String) (cid : Nat) (idx : String) (e : String) (pd : ProblemData)
    (hparse : parseProblemUrl url = some (cid, idx))
    (hapi : fetchFromCodeforcesAPI env.api cid idx = .error e)
    (hscrape : (scrapeRun (env.render 0)).1 = .ok pd) :
    (extractProblemData env url).1 = .ok pd ∧ pd.source = "Codeforces" := by
  have hsrc : pd.source = "Codeforces" := by
    obtain ⟨dom, _, hpd⟩ := scrapeRun_ok hscrape
    rw [hpd]
    exact extractFromDom_source dom
  refine ⟨?_, hsrc⟩
  rw [extractProblemData_parsed hparse, tryFetchAndScrape_api_error hapi]
  exact hscrape

theorem metadata_failure_is_graceful_witness :
    (extractProblemData gracefulEnv cfUrl).1 = .ok (extractFromDom demoDom) ∧
      (extractFromDom demoDom).source = "Codeforces" :=
  metadata_failure_is_graceful gracefulEnv cfUrl 4 "A"
    "Failed to fetch from Codeforces API: network unreachable"
    (extractFromDom demoDom) (by decide) rfl rfl

/-- C2 (evidence of the code bug): with the metadata fetch succeeding and
the first scrape attempt failing, the `catch` block of `extractProblemData`
invokes the scrape a second time — the call trace records two scrape
invocations, contradicting the no-retry policy. -/
theorem scrape_retried_after_first_failure :
    fetchFromCodeforcesAPI retryEnv.api 4 "A" = .ok watermelonApi ∧
    (scrapeRun (retryEnv.render 0)).1 =
      .error "Failed to scrape problem data: Navigation timeout of 20000 ms exceeded" ∧
    (extractProblemData retryEnv cfUrl).2 = { apiCalls := 1, scrapeCalls := 2 } :=
  ⟨rfl, rfl, by decide⟩

/-- C5: a URL matched by neither regex makes `extractProblemData` fail with
the invalid-URL error, with neither the metadata fetch nor the rendered
fetch attempted. -/
theorem invalid_url_fails_without_network (env : OrchEnv) (url : String)
    (h : parseProblemUrl url = none) :
    extractProblemData env url =
      (.error "Invalid Codeforces problem URL format", { apiCalls := 0, scrapeCalls := 0 }) := by
  unfold extractProblemData
  rw [h]

theorem invalid_url_fails_without_network_witness :
    parseProblemUrl blogUrl = none ∧
      extractProblemData mergeEnv blogUrl =
        (.error "Invalid Codeforces problem URL format", { apiCalls := 0, scrapeCalls := 0 }) :=
  ⟨by decide, invalid_url_fails_without_network mergeEnv blogUrl (by decide)⟩

/-- C9: whenever the browser session is launched, the call closes it on
every exit path — success, swallowed readiness timeout, navigation failure
or any other exception. -/
theorem browser_released_on_all_paths (env : RenderEnv) (h : env.launchOk = true) :
    (scrapeRun env).2 = [BrowserEvent.launched, BrowserEvent.closed] := by
  unfold scrapeRun
  rw [h]
  split
  · split
    · rfl
    · rfl
  · next hc => exact absurd rfl hc

theorem browser_released_on_all_paths_witness :
    (scrapeRun renderNavFailEnv).2 = [BrowserEvent.launched, BrowserEvent.closed] :=
  browser_released_on_all_paths renderNavFailEnv rfl

/-- C6: when the metadata fetch and the scrape both succeed, the merged
record takes `title` from the metadata name (falling back to the scraped
title only when the name is empty), `difficulty` from the formatted
metadata rating (falling back to the scraped difficulty when absent), and
every other field from the scraped result. -/
theorem merge_policy_fields
    (env : OrchEnv) (url : String) (cid : Nat) (idx : String)
    (apiData : CodeforcesApiProblem) (d : ProblemData)
    (hparse : parseProblemUrl url = some (cid, idx))
    (hapi : fetchFromCodeforcesAPI env.api cid idx = .ok apiData)
    (hscrape : (scrapeRun (env.render 0)).1 = .ok d) :
    ∃ m, (extractProblemData env url).1 = .ok m ∧
      m.title = (if apiData.name = "" then d.title else apiData.name) ∧
      m.timeLimit = d.timeLimit ∧ m.memoryLimit = d.memoryLimit ∧
      m.description = d.description ∧ m.inputFormat = d.inputFormat ∧
      m.outputFormat = d.outputFormat ∧ m.constraints = d.constraints ∧
      m.sampleTests = d.sampleTests ∧
      (∀ r, apiData.rating = some r → r ≠ 0 → m.difficulty = some ("*" ++ toString r)) ∧
      (apiData.rating = none → m.difficulty = d.difficulty) := by
  refine ⟨mergeData cid apiData d, ?_, rfl, rfl, rfl, rfl, rfl, rfl, rfl, rfl, ?_, ?_⟩
  · rw [extractProblemData_parsed hparse, tryFetchAndScrape_merge hapi hscrape]
  · intro r hr hr0
    show (mergeData cid apiData d).difficulty = some ("*" ++ toString r)
    unfold mergeData
    rw [hr]
    simp [hr0]
  · intro hr
    show (mergeData cid apiData d).difficulty = d.difficulty
    unfold mergeData
    rw [hr]

theorem merge_policy_fields_witness :
    ∃ m, (extractProblemData mergeEnv cfUrl).1 = .ok m ∧ m.title = "Watermelon" ∧
      m.difficulty = some "*800" ∧ (extractFromDom demoDom).title = "Theatre Square" := by
  obtain ⟨m, hm, ht, _, _, _, _, _, _, _, hrat, _⟩ :=
    merge_policy_fields mergeEnv cfUrl 4 "A" watermelonApi (extractFromDom demoDom)
      (by decide) rfl rfl
  refine ⟨m, hm, ?_, ?_, by decide⟩
  · rw [ht, if_neg (by decide)]
    rfl
  · have := hrat 800 rfl (by decide)
    simpa using this

theorem mergeData_difficulty_rated {apiData : CodeforcesApiProblem} {r : Nat}
    (cid : Nat) (d : ProblemData) (hr : apiData.rating = some r) (h0 : r ≠ 0) :
    (mergeData cid apiData d).difficulty = some ("*" ++ toString r) := by
  simp only [mergeData]
  rw [hr]
  simp [h0]

theorem mergeData_difficulty_zero {apiData : CodeforcesApiProblem}
    (cid : Nat) (d : ProblemData) (hr : apiData.rating = some 0) :
    (mergeData cid apiData d).difficulty = d.difficulty := by
  simp only [mergeData]
  rw [hr]
  rfl

theorem mergeData_difficulty_absent {apiData : CodeforcesApiProblem}
    (cid : Nat) (d : ProblemData) (hr : apiData.rating = none) :
    (mergeData cid apiData d).difficulty = d.difficulty := by
  simp only [mergeData]
  rw [hr]

/-- C10 (amended): the scraping stage always publishes `difficulty = none`;
for a successful call, the merged `difficulty` is defined iff the metadata
fetch succeeded with a non-zero rating *and* the first scrape attempt
succeeded (so that the merge path, not the catch path, produced the
result), in which case it is `"*"` followed by the rating. -/
theorem difficulty_iff_merge_path :
    (∀ dom, (extractFromDom dom).difficulty = none) ∧
    ∀ env url pd, (extractProblemData env url).1 = .ok pd →
      (pd.difficulty.isSome = true ↔
        ∃ cid idx apiData d r,
          parseProblemUrl url = some (cid, idx) ∧
          fetchFromCodeforcesAPI env.api cid idx = .ok apiData ∧
          (scrapeRun (env.render 0)).1 = .ok d ∧
          apiData.rating = some r ∧ r ≠ 0 ∧
          pd.difficulty = some ("*" ++ toString r)) := by
  refine ⟨fun dom => rfl, ?_⟩
  intro env url pd hok
  cases hp : parseProblemUrl url with
  | none =>
    rw [extractProblemData, hp] at hok
    exact Except.noConfusion hok
  | some ref =>
    obtain ⟨cid, idx⟩ := ref
    rw [extractProblemData_parsed hp] at hok
    cases hf : fetchFromCodeforcesAPI env.api cid idx with
    | error e =>
      rw [tryFetchAndScrape_api_error hf] at hok
      obtain ⟨dom, _, hpd⟩ := scrapeRun_ok hok
      constructor
      · intro hs
        rw [hpd, extractFromDom_difficulty] at hs
        exact Bool.noConfusion hs
      · rintro ⟨cid2, idx2, apiData, d, r, hp2, hf2, -, -, -, -⟩
        injection hp2 with hp3
        injection hp3 with h1 h2
        subst h1
        subst h2
        rw [hf] at hf2
        exact Except.noConfusion hf2
    | ok apiData =>
      cases hs : (scrapeRun (env.render 0)).1 with
      | error e =>
        rw [tryFetchAndScrape_retry hf hs] at hok
        obtain ⟨dom, _, hpd⟩ := scrapeRun_ok hok
        constructor
        · intro hx
          rw [hpd, extractFromDom_difficulty] at hx
          exact Bool.noConfusion hx
        · rintro ⟨cid2, idx2, apiData2, d, r, hp2, -, hs2, -, -, -⟩
          exact Except.noConfusion hs2
      | ok d =>
        rw [tryFetchAndScrape_merge hf hs] at hok
        injection hok with hok2
        subst hok2
        have hd : d.difficulty = none := by
          obtain ⟨dom, _, hpd⟩ := scrapeRun_ok hs
          rw [hpd]
          exact extractFromDom_difficulty dom
        cases hr : apiData.rating with
        | none =>
          have hdm := mergeData_difficulty_absent cid d hr
          constructor
          · intro hx
            rw [hdm, hd] at hx
            exact Bool.noConfusion hx
          · rintro ⟨cid2, idx2, apiData2, d2, r, hp2, hf2, -, hr2, -, -⟩
            injection hp2 with hp3
            injection hp3 with h1 h2
            subst h1
            subst h2
            rw [hf] at hf2
            injection hf2 with hf3
            subst hf3
            rw [hr] at hr2
            exact Option.noConfusion hr2
        | some r =>
          by_cases h0 : r = 0
          · subst h0
            have hdm := mergeData_difficulty_zero cid d hr
            constructor
            · intro hx
              rw [hdm, hd] at hx
              exact Bool.noConfusion hx
            · rintro ⟨cid2, idx2, apiData2, d2, r2, hp2, hf2, -, hr2, h02, -⟩
              injection hp2 with hp3
              injection hp3 with h1 h2
              subst h1
              subst h2
              rw [hf] at hf2
              injection hf2 with hf3
              subst hf3
              rw [hr] at hr2
              injection hr2 with hr3
              exact absurd hr3.symm h02
          · have hdm := mergeData_difficulty_rated cid d hr h0
            constructor
            · intro _
              exact ⟨cid, idx, apiData, d, r, rfl, hf, rfl, hr, h0, hdm⟩
            · intro _
              rw [hdm]
              rfl

theorem difficulty_iff_merge_path_witness :
    (mergeData 4 watermelonApi (extractFromDom demoDom)).difficulty.isSome = true ↔
      ∃ cid idx apiData d r,
        parseProblemUrl cfUrl = some (cid, idx) ∧
        fetchFromCodeforcesAPI mergeEnv.api cid idx = .ok apiData ∧
        (scrapeRun (mergeEnv.render 0)).1 = .ok d ∧
        apiData.rating = some r ∧ r ≠ 0 ∧
        (mergeData 4 watermelonApi (extractFromDom demoDom)).difficulty =
          some ("*" ++ toString r) :=
  difficulty_iff_merge_path.2 mergeEnv cfUrl
    (mergeData 4 watermelonApi (extractFromDom demoDom)) rfl

/-- C10 counterexample: with the metadata fetch succeeding (rating 800) but
the first scrape attempt failing, the call still succeeds via the second
scrape attempt and returns `difficulty = none` — so a defined difficulty is
*not* equivalent to the metadata fetch succeeding with a rating. -/
theorem difficulty_dropped_on_retry :
    parseProblemUrl cfUrl = some (4, "A") ∧
    fetchFromCodeforcesAPI retryEnv.api 4 "A" = .ok watermelonApi ∧
    watermelonApi.rating = some 800 ∧
    (extractProblemData retryEnv cfUrl).1 = .ok (extractFromDom demoDom) ∧
    (extractFromDom demoDom).difficulty = none :=
  ⟨rfl, rfl, rfl, rfl, rfl⟩

/-! ### Sample-pairing lemmas (C3) -/

theorem pairSamples_valid {ins outs : List Elem} {tc : TestCase}
    (h : tc ∈ pairSamples ins outs) :
    tc.input ≠ "" ∧ tc.output ≠ "" ∧ tc.input.length < 200 ∧ tc.output.length < 200 := by
  unfold pairSamples at h
  rw [List.mem_filterMap] at h
  obtain ⟨i, -, hi⟩ := h
  dsimp only at hi
  split at hi
  · next hcond =>
      injection hi with hi2
      subst hi2
      exact hcond
  · exact Option.noConfusion hi

theorem filterMap_guard {α β : Type} (g : α → β) (P : β → Prop) [DecidablePred P] :
    ∀ l : List α,
      (l.filterMap fun a => if P (g a) then some (g a) else none) =
        (l.map g).filter (fun b => decide (P b)) := by
  intro l
  induction l with
  | nil => rfl
  | cons a t ih =>
    by_cases h : P (g a)
    · simp [List.filterMap_cons, List.filter_cons, h, ih]
    · simp [List.filterMap_cons, List.filter_cons, h, ih]

theorem pairSamples_eq_map_filter (ins outs : List Elem) :
    pairSamples ins outs =
      ((List.range (Nat.min ins.length outs.length)).map
        (fun i => TestCase.mk (sampleAt ins i) (sampleAt outs i) none)).filter
        (fun tc => decide (tc.input ≠ "" ∧ tc.output ≠ "" ∧
          tc.input.length < 200 ∧ tc.output.length < 200)) :=
  filterMap_guard (fun i => TestCase.mk (sampleAt ins i) (sampleAt outs i) none)
    (fun tc => tc.input ≠ "" ∧ tc.output ≠ "" ∧ tc.input.length < 200 ∧ tc.output.length < 200)
    (List.range (Nat.min ins.length outs.length))

theorem samplesOverOutputs_cases (dom : Dom) (ins : List Elem) :
    ∀ sels, samplesOverOutputs dom ins sels = [] ∨
      ∃ so ∈ sels, samplesOverOutputs dom ins sels = pairSamples ins (dom.queryAll so) := by
  intro sels
  induction sels with
  | nil => exact Or.inl rfl
  | cons so rest ih =>
    unfold samplesOverOutputs
    split
    · split
      · exact Or.inr ⟨so, List.mem_cons_self so rest, rfl⟩
      · rcases ih with h | ⟨so2, hmem, heq⟩
        · exact Or.inl h
        · exact Or.inr ⟨so2, List.mem_cons_of_mem so hmem, heq⟩
    · rcases ih with h | ⟨so2, hmem, heq⟩
      · exact Or.inl h
      · exact Or.inr ⟨so2, List.mem_cons_of_mem so hmem, heq⟩

theorem samplesOverInputs_cases (dom : Dom) :
    ∀ sels, samplesOverInputs dom sels = [] ∨
      ∃ si ∈ sels, ∃ so ∈ outputSelectors,
        samplesOverInputs dom sels = pairSamples (dom.queryAll si) (dom.queryAll so) := by
  intro sels
  induction sels with
  | nil => exact Or.inl rfl
  | cons si rest ih =>
    unfold samplesOverInputs
    split
    · split
      · next hpos =>
          rcases samplesOverOutputs_cases dom (dom.queryAll si) outputSelectors with
            h | ⟨so, hmem, heq⟩
          · rw [h] at hpos
            exact absurd hpos (by simp)
          · exact Or.inr ⟨si, List.mem_cons_self si rest, so, hmem, heq⟩
      · rcases ih with h | ⟨si2, hmem, so, hmem2, heq⟩
        · exact Or.inl h
        · exact Or.inr ⟨si2, List.mem_cons_of_mem si hmem, so, hmem2, heq⟩
    · rcases ih with h | ⟨si2, hmem, so, hmem2, heq⟩
      · exact Or.inl h
      · exact Or.inr ⟨si2, List.mem_cons_of_mem si hmem, so, hmem2, heq⟩

/-- C3: every emitted sample test is the positional pair of the i-th input
block with the i-th output block of one selector-family combination, taken
in page order up to the shorter count and kept only when both sides are
non-empty and under 200 characters. -/
theorem sample_pairing_positional_and_bounded (dom : Dom) :
    (∀ tc ∈ (extractFromDom dom).sampleTests,
      tc.input ≠ "" ∧ tc.output ≠ "" ∧ tc.input.length < 200 ∧ tc.output.length < 200) ∧
    ((extractFromDom dom).sampleTests = [] ∨
      ∃ si so, si ∈ inputSelectors ∧ so ∈ outputSelectors ∧
        (extractFromDom dom).sampleTests =
          ((List.range (Nat.min (dom.queryAll si).length (dom.queryAll so).length)).map
            (fun i => TestCase.mk (sampleAt (dom.queryAll si) i)
              (sampleAt (dom.queryAll so) i) none)).filter
            (fun tc => decide (tc.input ≠ "" ∧ tc.output ≠ "" ∧
              tc.input.length < 200 ∧ tc.output.length < 200))) := by
  have hst : (extractFromDom dom).sampleTests = samplesOverInputs dom inputSelectors := rfl
  constructor
  · intro tc htc
    rw [hst] at htc
    rcases samplesOverInputs_cases dom inputSelectors with h | ⟨si, -, so, -, heq⟩
    · rw [h] at htc
      exact absurd htc (List.not_mem_nil tc)
    · rw [heq] at htc
      exact pairSamples_valid htc
  · rcases samplesOverInputs_cases dom inputSelectors with h | ⟨si, hm1, so, hm2, heq⟩
    · exact Or.inl (hst.trans h)
    · exact Or.inr ⟨si, so, hm1, hm2, by rw [hst, heq, pairSamples_eq_map_filter]⟩

theorem sample_pairing_positional_and_bounded_witness :
    (TestCase.mk "8" "YES" none) ∈ (extractFromDom demoDom).sampleTests ∧
      ("8" : String) ≠ "" ∧ ("YES" : String) ≠ "" ∧
      ("8" : String).length < 200 ∧ ("YES" : String).length < 200 :=
  ⟨by decide, (sample_pairing_positional_and_bounded demoDom).1 (TestCase.mk "8" "YES" none)
    (by decide)⟩

/-! ### URL-recognition lemmas (C4, C7) -/

theorem ciCharEq_refl (c : Char) : ciCharEq c c = true := by
  simp [ciCharEq]

theorem ciEqList_refl : ∀ l : List Char, ciEqList l l = true := by
  intro l
  induction l with
  | nil => rfl
  | cons c cs ih => simp [ciEqList, ciCharEq_refl, ih]

theorem matchLiteralCI_decomp :
    ∀ (lit s r : List Char), matchLiteralCI lit s = some r →
      ∃ t, s = t ++ r ∧ ciEqList t lit = true := by
  intro lit
  induction lit with
  | nil =>
    intro s r h
    injection h with h2
    exact ⟨[], by rw [h2]; rfl, rfl⟩
  | cons l ls ih =>
    intro s r h
    cases s with
    | nil => exact Option.noConfusion h
    | cons c cs =>
      unfold matchLiteralCI at h
      split at h
      · next hci =>
          obtain ⟨t, ht, hc⟩ := ih cs r h
          exact ⟨c :: t, by rw [ht]; rfl, by simp [ciEqList, hci, hc]⟩
      · exact Option.noConfusion h

theorem matchLiteralCI_complete :
    ∀ (lit t s : List Char), ciEqList t lit = true → matchLiteralCI lit (t ++ s) = some s := by
  intro lit
  induction lit with
  | nil =>
    intro t s h
    cases t with
    | nil => rfl
    | cons a as => simp [ciEqList] at h
  | cons l ls ih =>
    intro t s h
    cases t with
    | nil => simp [ciEqList] at h
    | cons a as =>
      rw [ciEqList, Bool.and_eq_true] at h
      obtain ⟨h1, h2⟩ := h
      show matchLiteralCI (l :: ls) (a :: (as ++ s)) = some s
      unfold matchLiteralCI
      rw [if_pos h1]
      exact ih as s h2

theorem takeWhile_all_cons_neg {α : Type} (p : α → Bool) :
    ∀ (ds : List α) (b : α) (r : List α), (∀ c ∈ ds, p c = true) → p b = false →
      (ds ++ b :: r).takeWhile p = ds ∧ (ds ++ b :: r).dropWhile p = b :: r := by
  intro ds
  induction ds with
  | nil =>
    intro b r _ hb
    constructor
    · simp [List.takeWhile_cons, hb]
    · simp [List.dropWhile_cons, hb]
  | cons d ds ih =>
    intro b r hall hb
    have hd : p d = true := hall d (List.mem_cons_self d ds)
    have htail := ih b r (fun c hc => hall c (List.mem_cons_of_mem d hc)) hb
    constructor
    · simp only [List.cons_append, List.takeWhile_cons, hd, if_true]
      rw [htail.1]
    · simp only [List.cons_append, List.dropWhile_cons, hd, if_true]
      exact htail.2

theorem matchShapeAt_some {lit1 lit2 s r1 : List Char}
    (h : matchLiteralCI lit1 s = some r1) :
    matchShapeAt lit1 lit2 s = matchShapeTail lit2 r1 := by
  unfold matchShapeAt
  rw [h]

theorem matchShapeTail_decomp {lit2 r1 : List Char} {m : ShapeMatch}
    (h : matchShapeTail lit2 r1 = some m) :
    ∃ t2 rest, r1 = m.digits ++ (t2 ++ (m.indexChars ++ rest)) ∧
      ciEqList t2 lit2 = true ∧
      m.digits ≠ [] ∧ (∀ c ∈ m.digits, isDigitChar c = true) ∧
      ∃ c, isAsciiLetter c = true ∧
        (m.indexChars = [c] ∨ ∃ d, isDigitChar d = true ∧ m.indexChars = [c, d]) := by
  unfold matchShapeTail at h
  split at h
  · exact Option.noConfusion h
  · next hne =>
    have hr1 : r1 = r1.takeWhile isDigitChar ++ r1.dropWhile isDigitChar :=
      (List.takeWhile_append_dropWhile isDigitChar r1).symm
    have hdigs : ∀ c ∈ r1.takeWhile isDigitChar, isDigitChar c = true :=
      fun c hc => List.mem_takeWhile_imp hc
    split at h
    · exact Option.noConfusion h
    · next r3 h2 =>
      obtain ⟨t2, hdw, hc2⟩ := matchLiteralCI_decomp lit2 (r1.dropWhile isDigitChar) r3 h2
      split at h
      · exact Option.noConfusion h
      · next c rest =>
        split at h
        · next hletter =>
          split at h
          · injection h with hm
            subst hm
            refine ⟨t2, [], ?_, hc2, hne, hdigs, c, hletter, Or.inl rfl⟩
            conv_lhs => rw [hr1]
            rw [hdw]
            simp
          · next d rest2 =>
            split at h
            · next hdig =>
              injection h with hm
              subst hm
              refine ⟨t2, rest2, ?_, hc2, hne, hdigs, c, hletter,
                Or.inr ⟨d, hdig, rfl⟩⟩
              conv_lhs => rw [hr1]
              rw [hdw]
              simp
            · next hdig =>
              injection h with hm
              subst hm
              refine ⟨t2, d :: rest2, ?_, hc2, hne, hdigs, c, hletter, Or.inl rfl⟩
              conv_lhs => rw [hr1]
              rw [hdw]
              simp
        · exact Option.noConfusion h

theorem matchShapeAt_decomp {lit1 lit2 s : List Char} {m : ShapeMatch}
    (h : matchShapeAt lit1 lit2 s = some m) :
    ∃ t1 t2 rest, s = t1 ++ (m.digits ++ (t2 ++ (m.indexChars ++ rest))) ∧
      ciEqList t1 lit1 = true ∧ ciEqList t2 lit2 = true ∧
      m.digits ≠ [] ∧ (∀ c ∈ m.digits, isDigitChar c = true) ∧
      ∃ c, isAsciiLetter c = true ∧
        (m.indexChars = [c] ∨ ∃ d, isDigitChar d = true ∧ m.indexChars = [c, d]) := by
  unfold matchShapeAt at h
  split at h
  · exact Option.noConfusion h
  · next r1 h1 =>
    obtain ⟨t1, hs1, hc1⟩ := matchLiteralCI_decomp lit1 s r1 h1
    obtain ⟨t2, rest, hr1, hc2, hne, hdigs, c, hletter, hix⟩ := matchShapeTail_decomp h
    exact ⟨t1, t2, rest, by rw [hs1, hr1], hc1, hc2, hne, hdigs, c, hletter, hix⟩

theorem findShape_decomp {lit1 lit2 : List Char} {m : ShapeMatch} :
    ∀ s : List Char, findShape lit1 lit2 s = some m →
      ∃ pre s2, s = pre ++ s2 ∧ matchShapeAt lit1 lit2 s2 = some m := by
  intro s
  induction s with
  | nil =>
    intro h
    exact ⟨[], [], rfl, h⟩
  | cons c cs ih =>
    intro h
    unfold findShape at h
    split at h
    · next hm =>
        injection h with h2
        subst h2
        exact ⟨[], c :: cs, rfl, hm⟩
    · obtain ⟨pre, s2, hsp, hm⟩ := ih h
      exact ⟨c :: pre, s2, by rw [hsp]; rfl, hm⟩

theorem matchShapeTail_complete (lit2t ds : List Char) (c : Char) (post : List Char)
    (hds : ds ≠ []) (hdig : ∀ x ∈ ds, isDigitChar x = true) (hc : isAsciiLetter c = true) :
    (matchShapeTail ('/' :: lit2t) (ds ++ '/' :: (lit2t ++ c :: post))).isSome = true := by
  obtain ⟨htw, hdw⟩ :=
    takeWhile_all_cons_neg isDigitChar ds '/' (lit2t ++ c :: post) hdig (by decide)
  have hlit : matchLiteralCI ('/' :: lit2t) ('/' :: (lit2t ++ c :: post)) = some (c :: post) := by
    have h2 := matchLiteralCI_complete ('/' :: lit2t) ('/' :: lit2t) (c :: post)
      (ciEqList_refl ('/' :: lit2t))
    simpa using h2
  cases post with
  | nil => simp [matchShapeTail, htw, hdw, hds, hlit, hc]
  | cons d rest =>
    by_cases hd : isDigitChar d = true
    · simp [matchShapeTail, htw, hdw, hds, hlit, hc, hd]
    · simp [matchShapeTail, htw, hdw, hds, hlit, hc, hd]

theorem findShape_complete {lit1 lit2 : List Char} :
    ∀ (pre s : List Char), (matchShapeAt lit1 lit2 s).isSome = true →
      (findShape lit1 lit2 (pre ++ s)).isSome = true := by
  intro pre
  induction pre with
  | nil =>
    intro s h
    rw [List.nil_append]
    cases s with
    | nil => exact h
    | cons c cs =>
      unfold findShape
      split
      · rfl
      · next hnone =>
          rw [hnone] at h
          exact absurd h (by simp)
  | cons p ps ih =>
    intro s h
    show (findShape lit1 lit2 (p :: (ps ++ s))).isSome = true
    unfold findShape
    split
    · rfl
    · exact ih s h

theorem isUpper_toUpperAscii {c : Char} (h : isAsciiLetter c = true) :
    isUpperAscii (toUpperAscii c) = true := by
  rw [isAsciiLetter, Bool.or_eq_true] at h
  rcases h with h | h
  · have hm : c ∈ upperChars := of_decide_eq_true h
    fin_cases hm <;> decide
  · have hm : c ∈ lowerChars := of_decide_eq_true h
    fin_cases hm <;> decide

theorem toUpperAscii_digit {d : Char} (h : isDigitChar d = true) : toUpperAscii d = d := by
  have hm : d ∈ digitChars := of_decide_eq_true h
  fin_cases hm <;> rfl

theorem upperIndexShape_mk {ixChars : List Char}
    (hix : ∃ c, isAsciiLetter c = true ∧
      (ixChars = [c] ∨ ∃ d, isDigitChar d = true ∧ ixChars = [c, d])) :
    upperIndexShape (String.mk (ixChars.map toUpperAscii)) := by
  obtain ⟨c, hc, hcase⟩ := hix
  rcases hcase with rfl | ⟨d, hd, rfl⟩
  · exact ⟨toUpperAscii c, isUpper_toUpperAscii hc, Or.inl rfl⟩
  · refine ⟨toUpperAscii c, isUpper_toUpperAscii hc, Or.inr ⟨d, hd, ?_⟩⟩
    show [toUpperAscii c, toUpperAscii d] = [toUpperAscii c, d]
    rw [toUpperAscii_digit hd]

theorem findShape_shapeDecomp {lit1 lit2 urlData : List Char} {m : ShapeMatch}
    (hm : findShape lit1 lit2 urlData = some m) :
    ∃ pre t1 t2 rest, urlData = pre ++ t1 ++ m.digits ++ t2 ++ m.indexChars ++ rest ∧
      ciEqList t1 lit1 = true ∧ ciEqList t2 lit2 = true ∧ m.digits ≠ [] ∧
      (∀ c ∈ m.digits, isDigitChar c = true) ∧
      ∃ c, isAsciiLetter c = true ∧
        (m.indexChars = [c] ∨ ∃ d, isDigitChar d = true ∧ m.indexChars = [c, d]) := by
  obtain ⟨pre, s2, hsp, hmat⟩ := findShape_decomp urlData hm
  obtain ⟨t1, t2, rest, hdec, hc1, hc2, hne, hdigs, c, hletter, hix⟩ := matchShapeAt_decomp hmat
  refine ⟨pre, t1, t2, rest, ?_, hc1, hc2, hne, hdigs, c, hletter, hix⟩
  rw [hsp, hdec]
  simp [List.append_assoc]

/-- C4: every accepted URL parses to a reference whose index is the
uppercased one-letter-optional-digit capture and whose contest id is the
numeric value of the digit segment captured between the two shape
literals; in particular the contest-shape URL for problem 4/A parses to
`(4, "A")`. -/
theorem url_parse_uppercase_and_numeric :
    parseProblemUrl cfUrl = some (4, "A") ∧
    ∀ url cid idx, parseProblemUrl url = some (cid, idx) →
      upperIndexShape idx ∧ shapeDecomp url cid idx := by
  refine ⟨by decide, ?_⟩
  intro url cid idx h
  unfold parseProblemUrl at h
  split at h
  · next m hm =>
      injection h with h2
      injection h2 with hcid hidx
      subst hcid
      subst hidx
      obtain ⟨pre, t1, t2, rest, hdec, hc1, hc2, hne, hdigs, hix⟩ := findShape_shapeDecomp hm
      refine ⟨upperIndexShape_mk hix, ?_⟩
      exact ⟨pre, t1, m.digits, t2, m.indexChars, rest, hdec,
        Or.inl ⟨hc1, hc2⟩, hne, hdigs, rfl, rfl⟩
  · split at h
    · next m hm =>
        injection h with h2
        injection h2 with hcid hidx
        subst hcid
        subst hidx
        obtain ⟨pre, t1, t2, rest, hdec, hc1, hc2, hne, hdigs, hix⟩ := findShape_shapeDecomp hm
        refine ⟨upperIndexShape_mk hix, ?_⟩
        exact ⟨pre, t1, m.digits, t2, m.indexChars, rest, hdec,
          Or.inr ⟨hc1, hc2⟩, hne, hdigs, rfl, rfl⟩
    · exact Option.noConfusion h

theorem url_parse_uppercase_and_numeric_witness :
    upperIndexShape "A" ∧ shapeDecomp cfUrl 4 "A" :=
  url_parse_uppercase_and_numeric.2 cfUrl 4 "A" (by decide)

theorem matchShapeAt_complete (lit1 lit2t ds : List Char) (c : Char) (post : List Char)
    (hds : ds ≠ []) (hdig : ∀ x ∈ ds, isDigitChar x = true) (hc : isAsciiLetter c = true) :
    (matchShapeAt lit1 ('/' :: lit2t) (lit1 ++ (ds ++ '/' :: (lit2t ++ c :: post)))).isSome
      = true := by
  have h1 := matchLiteralCI_complete lit1 lit1 (ds ++ '/' :: (lit2t ++ c :: post))
    (ciEqList_refl lit1)
  rw [matchShapeAt_some h1]
  exact matchShapeTail_complete lit2t ds c post hds hdig hc

theorem parse_isSome_of_contest_shape (pre mid : List Char)
    (h : (matchShapeAt contestLit problemLit mid).isSome = true) :
    ∀ url : String, url.data = pre ++ mid → (parseProblemUrl url).isSome = true := by
  intro url hurl
  unfold parseProblemUrl
  rw [hurl]
  split
  · rfl
  · have h2 := findShape_complete pre mid h
    split
    · rfl
    · next hnone =>
        rw [hnone] at h2
        exact absurd h2 (by simp)

theorem parse_isSome_of_problemset_shape (pre mid : List Char)
    (h : (matchShapeAt problemsetLit slashLit mid).isSome = true) :
    ∀ url : String, url.data = pre ++ mid → (parseProblemUrl url).isSome = true := by
  intro url hurl
  unfold parseProblemUrl
  rw [hurl]
  have h2 := findShape_complete pre mid h
  split
  · rfl
  · next hnone =>
      rw [hnone] at h2
      exact absurd h2 (by simp)

/-- C7 counterexample: a URL whose path starts with `/blog/123` and which
carries the contest shape only inside its query string is nevertheless
accepted by the URL recognition — the regexes are unanchored substring
searches, not start-of-path matches. -/
theorem url_match_counterexample :
    parseProblemUrl sneakyUrl = some (4, "A") ∧
    sneakyUrl.data =
      "https://codeforces.com/blog/123".data ++ "?next=/contest/4/problem/A".data :=
  ⟨by decide, by decide⟩

/-- C7 (amended): URL recognition is an unanchored, case-insensitive
substring search over the whole URL string — any string containing either
shape anywhere (in the path, the query string or a fragment) is accepted. -/
theorem url_match_substring_search
    (pre post ds : List Char) (c : Char)
    (h1 : ds ≠ []) (h2 : ∀ x ∈ ds, isDigitChar x = true) (h3 : isAsciiLetter c = true) :
    (parseProblemUrl (String.mk
      (pre ++ contestLit ++ ds ++ problemLit ++ c :: post))).isSome = true ∧
    (parseProblemUrl (String.mk
      (pre ++ problemsetLit ++ ds ++ slashLit ++ c :: post))).isSome = true := by
  constructor
  · have hat := matchShapeAt_complete contestLit "problem/".data ds c post h1 h2 h3
    have e2 : ('/' :: "problem/".data : List Char) = problemLit := rfl
    rw [e2] at hat
    have e3 : problemLit ++ (c :: post) = '/' :: ("problem/".data ++ (c :: post)) := rfl
    refine parse_isSome_of_contest_shape pre
      (contestLit ++ (ds ++ '/' :: ("problem/".data ++ (c :: post)))) hat _ ?_
    show pre ++ contestLit ++ ds ++ problemLit ++ c :: post =
      pre ++ (contestLit ++ (ds ++ '/' :: ("problem/".data ++ (c :: post))))
    simp only [List.append_assoc]
    rw [← e3]
  · have hat := matchShapeAt_complete problemsetLit [] ds c post h1 h2 h3
    have e2 : ('/' :: ([] : List Char)) = slashLit := rfl
    rw [e2] at hat
    have e3 : slashLit ++ (c :: post) = '/' :: (([] : List Char) ++ (c :: post)) := rfl
    refine parse_isSome_of_problemset_shape pre
      (problemsetLit ++ (ds ++ '/' :: (([] : List Char) ++ (c :: post)))) hat _ ?_
    show pre ++ problemsetLit ++ ds ++ slashLit ++ c :: post =
      pre ++ (problemsetLit ++ (ds ++ '/' :: (([] : List Char) ++ (c :: post))))
    simp only [List.append_assoc]
    rw [← e3]

theorem url_match_substring_search_witness :
    (parseProblemUrl (String.mk
      ("https://x.example/q?u=".data ++ contestLit ++ ['7'] ++ problemLit ++
        'B' :: []))).isSome = true ∧
    (parseProblemUrl (String.mk
      ("https://x.example/q?u=".data ++ problemsetLit ++ ['7'] ++ slashLit ++
        'B' :: []))).isSome = true :=
  url_match_substring_search "https://x.example/q?u=".data [] ['7'] 'B'
    (by decide) (by decide) (by decide)

/-! ### Label-stripping lemmas (C8) -/

theorem sw_of_ciEq : ∀ (needle t post : List Char), ciEqList t needle = true →
    startsWithCI needle (t ++ post) = true := by
  intro needle
  induction needle with
  | nil => intro t post _; rfl
  | cons n ns ih =>
    intro t post h
    cases t with
    | nil => simp [ciEqList] at h
    | cons a as =>
      rw [ciEqList, Bool.and_eq_true] at h
      obtain ⟨h1, h2⟩ := h
      show startsWithCI (n :: ns) (a :: (as ++ post)) = true
      simp only [startsWithCI, Bool.and_eq_true]
      exact ⟨h1, ih as post h2⟩

theorem ciEq_take_of_sw : ∀ (needle l : List Char), startsWithCI needle l = true →
    ciEqList (l.take needle.length) needle = true := by
  intro needle
  induction needle with
  | nil => intro l _; rfl
  | cons n ns ih =>
    intro l h
    cases l with
    | nil => simp [startsWithCI] at h
    | cons a as =>
      simp only [startsWithCI, Bool.and_eq_true] at h
      obtain ⟨h1, h2⟩ := h
      show ciEqList (a :: as.take ns.length) (n :: ns) = true
      simp only [ciEqList, Bool.and_eq_true]
      exact ⟨h1, ih as h2⟩

/-- First-occurrence specification of `removeFirstCI`: either no
case-insensitive occurrence of `needle` exists and the list is returned
unchanged, or the leftmost occurrence is deleted. -/
theorem removeFirstCI_spec (needle : List Char) (n0 : needle ≠ []) :
    ∀ l : List Char,
      (removeFirstCI needle l = l ∧
        ∀ pre mid post, l = pre ++ mid ++ post → ciEqList mid needle = true → False) ∨
      (∃ pre mid post, l = pre ++ mid ++ post ∧ ciEqList mid needle = true ∧
        removeFirstCI needle l = pre ++ post ∧
        ∀ pre2 mid2 post2, l = pre2 ++ mid2 ++ post2 → ciEqList mid2 needle = true →
          pre.length ≤ pre2.length) := by
  intro l
  induction l with
  | nil =>
    left
    refine ⟨rfl, ?_⟩
    intro pre mid post hsplit hci
    obtain ⟨n, ns, rfl⟩ := List.exists_cons_of_ne_nil n0
    have h1 : (pre ++ mid) ++ post = [] := hsplit.symm
    rw [List.append_eq_nil] at h1
    obtain ⟨h2, -⟩ := h1
    rw [List.append_eq_nil] at h2
    obtain ⟨-, hmid⟩ := h2
    subst hmid
    simp [ciEqList] at hci
  | cons c cs ih =>
    by_cases hsw : startsWithCI needle (c :: cs) = true
    · right
      have hrm : removeFirstCI needle (c :: cs) = List.drop needle.length (c :: cs) := by
        unfold removeFirstCI
        rw [if_pos hsw]
      refine ⟨[], (c :: cs).take needle.length, (c :: cs).drop needle.length,
        ?_, ciEq_take_of_sw needle (c :: cs) hsw, ?_, ?_⟩
      · rw [List.nil_append, List.take_append_drop]
      · rw [hrm, List.nil_append]
      · intro pre2 mid2 post2 _ _
        exact Nat.zero_le _
    · have hrm : removeFirstCI needle (c :: cs) = c :: removeFirstCI needle cs := by
        conv_lhs => rw [removeFirstCI]
        rw [if_neg hsw]
      rcases ih with ⟨hid, hno⟩ | ⟨pre, mid, post, hsplit, hci, hrm2, hmin⟩
      · left
        refine ⟨by rw [hrm, hid], ?_⟩
        intro pre mid post hsp hci
        cases pre with
        | nil =>
          rw [List.nil_append] at hsp
          have hsw2 : startsWithCI needle (c :: cs) = true := by
            rw [hsp]
            exact sw_of_ciEq needle mid post hci
          exact hsw hsw2
        | cons p ps =>
          injection hsp with hc1 hc2
          exact hno ps mid post hc2 hci
      · right
        refine ⟨c :: pre, mid, post, ?_, hci, ?_, ?_⟩
        · simp only [List.cons_append]
          rw [← hsplit]
        · rw [hrm, hrm2]
          simp only [List.cons_append]
        · intro pre2 mid2 post2 hsp hci2
          cases pre2 with
          | nil =>
            rw [List.nil_append] at hsp
            have hsw2 : startsWithCI needle (c :: cs) = true := by
              rw [hsp]
              exact sw_of_ciEq needle mid2 post2 hci2
            exact absurd hsw2 hsw
          | cons p2 ps2 =>
            injection hsp with hc1 hc2
            have hle := hmin ps2 mid2 post2 hc2 hci2
            simp only [List.length_cons]
            exact Nat.succ_le_succ hle

theorem strippedSpec_of_removeFirstCI (needle : List Char) (n0 : needle ≠ [])
    (t : List Char) :
    strippedSpec needle t (String.mk (jsTrimL (removeFirstCI needle t))) := by
  rcases removeFirstCI_spec needle n0 t with ⟨hid, hno⟩ |
    ⟨pre, mid, post, hsplit, hci, hrm, hmin⟩
  · left
    exact ⟨hno, by rw [hid]⟩
  · right
    exact ⟨pre, mid, post, hsplit, hci, by rw [hrm], hmin⟩

/-- C8 counterexample: when the located input-specification text contains
the word `input` in the middle but not as a leading label, the
`replace(/input/i, '')` step still deletes that interior occurrence. -/
theorem format_strip_counterexample :
    getTextBySelectors midWordDom inputSpecSelectors = "The input is one line" ∧
    startsWithCI "input".data (getTextBySelectors midWordDom inputSpecSelectors).data
      = false ∧
    extractInputFormatRaw midWordDom = "The  is one line" ∧
    (extractFromDom midWordDom).inputFormat = "The  is one line" :=
  ⟨by decide, by decide, by decide, by decide⟩

/-- C8 (amended): the input/output format fields are obtained from the
cascade text by deleting its *first* case-insensitive occurrence of the
label word (wherever it occurs) and trimming; when the text has no such
occurrence it is only trimmed.  If the text begins with the label this
coincides with stripping the leading label, but an interior occurrence is
deleted whenever no earlier one exists. -/
theorem format_strip_first_occurrence (dom : Dom) :
    strippedSpec "input".data (getTextBySelectors dom inputSpecSelectors).data
      (extractInputFormatRaw dom) ∧
    strippedSpec "output".data (getTextBySelectors dom outputSpecSelectors).data
      (extractOutputFormatRaw dom) := by
  constructor
  · exact strippedSpec_of_removeFirstCI "input".data (by decide)
      (getTextBySelectors dom inputSpecSelectors).data
  · exact strippedSpec_of_removeFirstCI "output".data (by decide)
      (getTextBySelectors dom outputSpecSelectors).data

theorem format_strip_first_occurrence_witness :
    strippedSpec "input".data (getTextBySelectors midWordDom inputSpecSelectors).data
      (extractInputFormatRaw midWordDom) ∧
    strippedSpec "output".data (getTextBySelectors midWordDom outputSpecSelectors).data
      (extractOutputFormatRaw midWordDom) :=
  format_strip_first_occurrence midWordDom

end SCH

